import Mathlib

/-!
Verification development for the overland-flow use-case notebook
(`overland_flow.ipynb`).

The notebook drives Landlab's `OverlandFlow` component through a checkpointed
simulation loop (the cell under "Step 3 Calculate Overland Flow").  We embed
that driver loop shallowly: the external Landlab component is an abstract
`Integrator` whose internal state is a type parameter, while the control flow
itself — the `for time_slice in range(0, model_run_time + time_step,
time_step)` loop, the inner `while elapsed_time < time_slice` sub-step loop,
the rainfall branch, the `elapsed_time += dt` update and the two list appends —
is translated statement by statement from the notebook cell.

Quantities the Python code stores in floats (elapsed time, `dt`, rainfall
intensity, discharge) are modelled by an arbitrary linear ordered ring `α`;
`ℚ` gives the exact-arithmetic model of the notebook values, while `ℤ` is used
to evaluate concrete runs.  The parts of the system that live in the external
Landlab library rather than in this repository (the adaptive timestep
computation, the explicit shallow-water update, the initializer validation)
are modelled from the spec; each such definition carries a doc comment saying
so.
-/

namespace OverlandFlow

/-- The run parameters set in the notebook cell:
`model_run_time = 20 * 60`, `storm_duration = 10 * 60`, `time_step = 30`,
`rainfall_intensity = 59.2 / (100 * 3600)` (mm/hr converted to m/s).
Durations of whole seconds (`model_run_time`, `time_step`) are naturals in the
Python source; the storm duration and the intensity are floats, modelled in
`α`. -/
structure RunConfig (α : Type) where
  model_run_time : ℕ
  storm_duration : α
  time_step : ℕ
  rainfall_intensity : α
deriving DecidableEq

/-- The exact rational model of the notebook's parameter values. -/
def defaultConfig : RunConfig ℚ :=
  ⟨20 * 60, 10 * 60, 30, 592 / 10 / (100 * 3600)⟩

/-- An integer-valued configuration sharing the notebook's durations
(`model_run_time = 1200`, `storm_duration = 600`, `time_step = 30`), used to
evaluate concrete runs. -/
def intConfig : RunConfig ℤ := ⟨20 * 60, 10 * 60, 30, 1⟩

variable {α : Type} [LinearOrderedRing α]

/-- The rainfall branch of the notebook sub-step loop, as a function of
elapsed time: `if elapsed_time < storm_duration:` set the configured
intensity, `else:` set `0.0`. -/
def intensity_at (cfg : RunConfig α) (t : α) : α :=
  if t < cfg.storm_duration then cfg.rainfall_intensity else 0

/-- Interface of the external Landlab `OverlandFlow` component exactly as the
notebook uses it: `calc_time_step()`, the state-advancing `overland_flow()`
call (performed after the `dt` and `rainfall_intensity` attributes have been
set), and the outlet read
`discharge_mapper(at_link['surface_water__discharge'], ...)[26267]`.
`σ` is the component's internal state; the component's methods are modelled as
pure functions of that state. -/
structure Integrator (σ α : Type) where
  calc_dt : σ → α
  step : σ → α → α → σ
  outletDischarge : σ → α

/-- Trace record of one iteration of the inner `while` loop: the elapsed time
at the start of the iteration, the adaptive `dt` chosen there, the rainfall
intensity set for this sub-step, the elapsed time after `elapsed_time += dt`,
and the outlet discharge value appended to `outlet_discharge` (the matching
time is appended to `outlet_times`). -/
structure SubStep (α : Type) where
  tStart : α
  dt : α
  rain : α
  sampleTime : α
  sampleValue : α
deriving DecidableEq

/-- Trace of one iteration of the outer `for time_slice` loop: the
`time_slice` value, the sub-steps its inner `while` loop executed, and the
elapsed time when that loop exited. -/
structure SliceTrace (α : Type) where
  slice : ℕ
  steps : List (SubStep α)
  tEnd : α
deriving DecidableEq

variable {σ : Type}

/-- The inner `while elapsed_time < time_slice:` loop of the notebook, with an
explicit fuel bound (the Python loop's termination depends on the component's
`dt` values; `none` means the fuel ran out before the checkpoint was reached).
Returns the sub-step trace, the final elapsed time and the final component
state.  The Python body binds `overland_flow.dt`, the intensity and the
post-step state once each; since the component methods are modelled as pure
functions those bindings are inlined here. -/
def whileLoop (I : Integrator σ α) (cfg : RunConfig α) (target : α) :
    ℕ → α → σ → Option (List (SubStep α) × α × σ)
  | 0, t, s => if t < target then none else some ([], t, s)
  | fuel + 1, t, s =>
    if t < target then
      (whileLoop I cfg target fuel (t + I.calc_dt s)
          (I.step s (I.calc_dt s) (intensity_at cfg t))).map
        fun r =>
          (⟨t, I.calc_dt s, intensity_at cfg t, t + I.calc_dt s,
              I.outletDischarge (I.step s (I.calc_dt s) (intensity_at cfg t))⟩
              :: r.1,
            r.2.1, r.2.2)
    else some ([], t, s)

/-- The outer `for time_slice in range(...)` loop, one `SliceTrace` per
`time_slice` value.  The checkpoint side effect (the plot/export branch) runs
for `time_slice > 0`; `checkpointTimes` below reads those slices off the
trace. -/
def runSlices (I : Integrator σ α) (cfg : RunConfig α) (fuel : ℕ) :
    List ℕ → α → σ → Option (List (SliceTrace α))
  | [], _, _ => some []
  | c :: cs, t, s =>
    (whileLoop I cfg (c : α) fuel t s).bind fun r =>
      (runSlices I cfg fuel cs r.2.1 r.2.2).map fun rest =>
        ⟨c, r.1, r.2.1⟩ :: rest

/-- Python's `range(start, stop, step)` for positive `step`, as a list. -/
def pythonRange (start stop step : ℕ) : List ℕ :=
  List.range' start ((stop - start + step - 1) / step) step

/-- The full driver loop of the notebook simulation cell, starting from
`elapsed_time = 0.0` and iterating `time_slice` over
`range(0, model_run_time + time_step, time_step)`. -/
def driverRun (I : Integrator σ α) (cfg : RunConfig α) (fuel : ℕ) (s0 : σ) :
    Option (List (SliceTrace α)) :=
  runSlices I cfg fuel
    (pythonRange 0 (cfg.model_run_time + cfg.time_step) cfg.time_step) 0 s0

/-- The `time_slice` values at which the notebook runs the plot/export branch
(`if time_slice > 0:`). -/
def checkpointTimes (tr : List (SliceTrace α)) : List ℕ :=
  (List.map SliceTrace.slice tr).filter fun c => decide (0 < c)

/-- All sub-steps of a run, in execution order. -/
def allSubSteps (tr : List (SliceTrace α)) : List (SubStep α) :=
  (List.map SliceTrace.steps tr).flatten

/-- The `outlet_times` list built by the run (one append per sub-step). -/
def outletTimes (tr : List (SliceTrace α)) : List α :=
  List.map SubStep.sampleTime (allSubSteps tr)

/-- The `outlet_discharge` list built by the run (one append per sub-step). -/
def outletDischargeSeries (tr : List (SliceTrace α)) : List α :=
  List.map SubStep.sampleValue (allSubSteps tr)

/-- Elapsed-time accounting of a list of consecutive sub-steps: each sub-step
starts where the previous one ended, its sample time is its start time plus
its `dt`, and the final elapsed time is the last sample time (or the start
time if no sub-step ran). -/
def Chained : α → List (SubStep α) → α → Prop
  | t, [], tEnd => tEnd = t
  | t, st :: rest, tEnd =>
    st.tStart = t ∧ st.sampleTime = t + st.dt ∧ Chained st.sampleTime rest tEnd

/-- The elapsed time at the end of a slice trace, given the time `t` at which
it started. -/
def endTime : α → List (SliceTrace α) → α
  | t, [] => t
  | _, sl :: rest => endTime sl.tEnd rest

/-- Node boundary status (Landlab: core node, fixed-value outlet node, closed
node). -/
inductive NodeStatus
  | core
  | fixedValue
  | closed
deriving DecidableEq

/-- Modelled from the spec: the grid is built by the external watershed
delineation step, not by code in this repository.  Fixed topology: node and
link counts, per-node boundary status, per-link head and tail nodes, per-node
cell area. -/
structure Grid where
  numNodes : ℕ
  numLinks : ℕ
  status : ℕ → NodeStatus
  linkHead : ℕ → ℕ
  linkTail : ℕ → ℕ
  cellArea : ℕ → ℚ

/-- The mutable flow state: water depth per node, signed discharge per link,
and the elapsed simulation time. -/
structure FlowState where
  water_depth : ℕ → ℚ
  discharge : ℕ → ℚ
  elapsed_time : ℚ

/-- Configuration of the modelled adaptive-timestep computation: the small
positive fallback floor and the configured upper bound. -/
structure TimestepConfig where
  dt_floor : ℚ
  dt_max : ℚ

/-- Modelled from the spec: `calc_time_step` lives in the external Landlab
library, not in this repository.  Per the spec it computes a CFL-like
stability bound from the grid geometry and the current depth and discharge
fields — kept abstract here as the argument `bound`, with `none` standing for
a non-finite result — is bounded above by a configured maximum, and
substitutes a small positive floor whenever the computed value is non-finite
or non-positive.  It reads only the grid and the depth/discharge fields of
the flow state. -/
def compute_timestep (bound : Grid → (ℕ → ℚ) → (ℕ → ℚ) → Option ℚ)
    (tc : TimestepConfig) (g : Grid) (fs : FlowState) : ℚ :=
  match bound g fs.water_depth fs.discharge with
  | none => tc.dt_floor
  | some v => if v ≤ 0 then tc.dt_floor else min v tc.dt_max

/-- Net volume flux into node `n`: discharge is signed along each link
(positive from head to tail), summed over all links. -/
def netFlux (g : Grid) (q : ℕ → ℚ) (n : ℕ) : ℚ :=
  ∑ l ∈ Finset.range g.numLinks,
    ((if g.linkTail l = n then q l else 0) - (if g.linkHead l = n then q l else 0))

/-- Modelled from the spec: the `overland_flow()` update lives in the external
Landlab library, not in this repository.  Per the spec, one explicit sub-step
(1) updates the discharge on every link joining two non-closed nodes by the
de Almeida momentum update — kept abstract here as `momentum`, since the spec
fixes only its interface — with links touching CLOSED nodes excluded (zero);
(2) updates each core node's depth by mass conservation over its incident
links plus rainfall input; (3) enforces `water_depth ≥ 0`: core-node depths
are clamped at zero, CLOSED nodes are forced to zero, and FIXED_VALUE nodes
retain their prescribed depth; (4) advances the elapsed time by `dt`. -/
def advance (momentum : Grid → FlowState → ℕ → ℚ) (g : Grid)
    (rain dt : ℚ) (fs : FlowState) : FlowState :=
  let q1 : ℕ → ℚ := fun l =>
    if g.status (g.linkHead l) = NodeStatus.closed ∨
        g.status (g.linkTail l) = NodeStatus.closed then 0
    else momentum g fs l
  let h1 : ℕ → ℚ := fun n =>
    match g.status n with
    | NodeStatus.closed => 0
    | NodeStatus.fixedValue => fs.water_depth n
    | NodeStatus.core =>
      max 0 (fs.water_depth n + dt * (netFlux g q1 n / g.cellArea n + rain))
  ⟨h1, q1, fs.elapsed_time + dt⟩

/-- A sequence of modelled sub-steps with given per-step rainfall and `dt`
inputs. -/
def advanceRun (momentum : Grid → FlowState → ℕ → ℚ) (g : Grid) :
    List (ℚ × ℚ) → FlowState → FlowState
  | [], fs => fs
  | p :: rest, fs => advanceRun momentum g rest (advance momentum g p.1 p.2 fs)

/-- The fatal initialization error of the spec's error model. -/
inductive InitError
  | invalidBoundaryConfiguration
deriving DecidableEq

/-- Modelled from the spec: the initializer validation is not implemented in
the notebook (which relies on the externally delineated watershed grid and a
hard-coded outlet id 26267).  Per the spec, initialization fails with
`InvalidBoundaryConfigurationError` when no FIXED_VALUE (outlet) node exists
or the outlet index lies outside the grid; this error is fatal and not
retried. -/
def initializeRun (g : Grid) (outlet : ℕ) : Except InitError Unit :=
  if outlet < g.numNodes ∧
      ∃ n ∈ Finset.range g.numNodes, g.status n = NodeStatus.fixedValue then
    Except.ok ()
  else
    Except.error InitError.invalidBoundaryConfiguration

/-- The driver run guarded by the modelled initialization check: on a boundary
configuration error the run fails fatally before any sub-step executes (no
trace is produced). -/
def checkedDriverRun (g : Grid) (outlet : ℕ) (I : Integrator σ α)
    (cfg : RunConfig α) (fuel : ℕ) (s0 : σ) :
    Except InitError (Option (List (SliceTrace α))) :=
  match initializeRun g outlet with
  | Except.error e => Except.error e
  | Except.ok _ => Except.ok (driverRun I cfg fuel s0)

/-- A concrete integrator with a constant 30 s timestep and zero reported
discharge, used to evaluate the driver loop on concrete inputs. -/
def constInt : Integrator Unit ℤ :=
  ⟨fun _ => 30, fun _ _ _ => (), fun _ => 0⟩

/-- A concrete integrator with a constant 400 s timestep, used to evaluate a
run whose sub-steps straddle the storm cutoff. -/
def constInt400 : Integrator Unit ℤ :=
  ⟨fun _ => 400, fun _ _ _ => (), fun _ => 0⟩

/-- The trace of the notebook-duration run under `constInt`. -/
def runTrace0 : List (SliceTrace ℤ) :=
  (driverRun constInt intConfig 2 ()).getD []

/-- The trace of the notebook-duration run under `constInt400`. -/
def runTrace400 : List (SliceTrace ℤ) :=
  (driverRun constInt400 intConfig 2 ()).getD []

/-- A small concrete grid with a fixed-value outlet at node 0. -/
def demoGrid : Grid :=
  ⟨4, 4, fun n => if n = 0 then NodeStatus.fixedValue else NodeStatus.core,
    fun l => l, fun l => (l + 1) % 4, fun _ => 900⟩

/-- A small concrete grid with no fixed-value node anywhere. -/
def noOutletGrid : Grid :=
  ⟨4, 4, fun _ => NodeStatus.core, fun l => l, fun l => (l + 1) % 4,
    fun _ => 900⟩

/-- The checkpoint discipline of the notebook driver loop, read off a run
trace: every sub-step of a slice starts strictly before the slice's
checkpoint time; the elapsed time at the end of a slice overshoots the
checkpoint by less than the last sub-step's `dt`; every slice ends at or past
its checkpoint time; checkpoints are visited in strictly increasing order;
and some visited checkpoint lies at or past `model_run_time` and its slice
ends at or past `model_run_time`. -/
def DriverLoopDiscipline (cfg : RunConfig α) (tr : List (SliceTrace α)) : Prop :=
  (∀ sl ∈ tr, ∀ st ∈ sl.steps, st.tStart < (sl.slice : α)) ∧
  (∀ sl ∈ tr, ∀ lst : SubStep α, sl.steps.getLast? = some lst →
    sl.tEnd < (sl.slice : α) + lst.dt) ∧
  (∀ sl ∈ tr, (sl.slice : α) ≤ sl.tEnd) ∧
  List.Chain' (· < ·) (List.map SliceTrace.slice tr) ∧
  (∃ sl ∈ tr, cfg.model_run_time ≤ sl.slice ∧ (cfg.model_run_time : α) ≤ sl.tEnd)

theorem Chained.append {a : List (SubStep α)} :
    ∀ {t m : α} {b : List (SubStep α)} {e : α},
      Chained t a m → Chained m b e → Chained t (a ++ b) e := by
  induction a with
  | nil =>
    intro t m b e h1 h2
    obtain rfl : m = t := h1
    exact h2
  | cons st rest ih =>
    intro t m b e h1 h2
    obtain ⟨h1a, h1b, h1c⟩ := h1
    exact ⟨h1a, h1b, ih h1c h2⟩

theorem Chained.sample_eq {steps : List (SubStep α)} :
    ∀ {t e : α}, Chained t steps e →
      ∀ st ∈ steps, st.sampleTime = st.tStart + st.dt := by
  induction steps with
  | nil =>
    intro t e _ st hst
    exact absurd hst (List.not_mem_nil st)
  | cons s0 rest ih =>
    intro t e h st hst
    obtain ⟨h1, h2, h3⟩ := h
    rcases List.mem_cons.mp hst with rfl | hst1
    · rw [h2, h1]
    · exact ih h3 st hst1

theorem Chained.mono {steps : List (SubStep α)} :
    ∀ {t e : α}, Chained t steps e → (∀ st ∈ steps, 0 < st.dt) →
      t ≤ e ∧ (∀ st ∈ steps, t < st.sampleTime) ∧
        List.Chain' (· < ·) (List.map SubStep.sampleTime steps) := by
  induction steps with
  | nil =>
    intro t e h _
    exact ⟨ge_of_eq h, by simp, by simp⟩
  | cons s0 rest ih =>
    intro t e h hpos
    obtain ⟨h1, h2, h3⟩ := h
    have hd : 0 < s0.dt := hpos s0 (List.mem_cons_self s0 rest)
    obtain ⟨ihle, ihgt, ihch⟩ :=
      ih h3 fun st hst => hpos st (List.mem_cons_of_mem s0 hst)
    have hts : t < s0.sampleTime := by
      rw [h2]
      exact lt_add_of_pos_right t hd
    refine ⟨le_trans (le_of_lt hts) ihle, ?_, ?_⟩
    · intro st hst
      rcases List.mem_cons.mp hst with rfl | hst1
      · exact hts
      · exact lt_trans hts (ihgt st hst1)
    · rw [List.map_cons]
      cases rest with
      | nil => simp
      | cons s1 rest1 =>
        rw [List.map_cons]
        exact List.chain'_cons.mpr
          ⟨ihgt s1 (List.mem_cons_self s1 rest1), by simpa using ihch⟩

theorem Chained.last_eq {steps : List (SubStep α)} :
    ∀ {t e : α}, Chained t steps e →
      ∀ lst : SubStep α, steps.getLast? = some lst →
        e = lst.sampleTime ∧ lst ∈ steps := by
  induction steps with
  | nil =>
    intro t e _ lst hlst
    simp [List.getLast?_nil] at hlst
  | cons s0 rest ih =>
    intro t e h lst hlst
    obtain ⟨_, _, h3⟩ := h
    cases rest with
    | nil =>
      obtain rfl : e = s0.sampleTime := h3
      obtain rfl : s0 = lst := by simpa using hlst
      exact ⟨rfl, List.mem_cons_self s0 []⟩
    | cons s1 rest1 =>
      rw [List.getLast?_cons_cons] at hlst
      obtain ⟨he, hm⟩ := ih h3 lst hlst
      exact ⟨he, List.mem_cons_of_mem s0 hm⟩

theorem whileLoop_spec {I : Integrator σ α} {cfg : RunConfig α} {target : α} :
    ∀ {fuel : ℕ} {t : α} {s : σ} {steps : List (SubStep α)} {tEnd : α} {sEnd : σ},
      whileLoop I cfg target fuel t s = some (steps, tEnd, sEnd) →
      Chained t steps tEnd ∧ target ≤ tEnd ∧
        ∀ st ∈ steps, st.tStart < target ∧
          st.rain = intensity_at cfg st.tStart ∧
          ∃ sPre : σ, st.dt = I.calc_dt sPre := by
  intro fuel
  induction fuel with
  | zero =>
    intro t s steps tEnd sEnd h
    unfold whileLoop at h
    by_cases hlt : t < target
    · rw [if_pos hlt] at h
      cases h
    · rw [if_neg hlt] at h
      simp only [Option.some.injEq, Prod.mk.injEq] at h
      obtain ⟨rfl, rfl, rfl⟩ := h
      exact ⟨rfl, not_lt.mp hlt, by simp⟩
  | succ fuel ih =>
    intro t s steps tEnd sEnd h
    unfold whileLoop at h
    by_cases hlt : t < target
    · rw [if_pos hlt] at h
      simp only [Option.map_eq_some'] at h
      obtain ⟨⟨steps1, tE, sE⟩, hrec, heq⟩ := h
      simp only [Prod.mk.injEq] at heq
      obtain ⟨rfl, rfl, rfl⟩ := heq
      obtain ⟨hch, hle, hall⟩ := ih hrec
      refine ⟨⟨rfl, rfl, hch⟩, hle, ?_⟩
      intro st hst
      rcases List.mem_cons.mp hst with rfl | hst1
      · exact ⟨hlt, rfl, s, rfl⟩
      · exact hall st hst1
    · rw [if_neg hlt] at h
      simp only [Option.some.injEq, Prod.mk.injEq] at h
      obtain ⟨rfl, rfl, rfl⟩ := h
      exact ⟨rfl, not_lt.mp hlt, by simp⟩

omit [LinearOrderedRing α] in
theorem allSubSteps_cons (sl : SliceTrace α) (tr : List (SliceTrace α)) :
    allSubSteps (sl :: tr) = sl.steps ++ allSubSteps tr := by
  simp [allSubSteps]

theorem runSlices_spec {I : Integrator σ α} {cfg : RunConfig α} {fuel : ℕ} :
    ∀ {cs : List ℕ} {t : α} {s : σ} {tr : List (SliceTrace α)},
      runSlices I cfg fuel cs t s = some tr →
      List.map SliceTrace.slice tr = cs ∧
      Chained t (allSubSteps tr) (endTime t tr) ∧
      ∀ sl ∈ tr, (sl.slice : α) ≤ sl.tEnd ∧
        (∃ t0, Chained t0 sl.steps sl.tEnd) ∧
        ∀ st ∈ sl.steps, st.tStart < (sl.slice : α) ∧
          st.rain = intensity_at cfg st.tStart ∧
          ∃ sPre : σ, st.dt = I.calc_dt sPre := by
  intro cs
  induction cs with
  | nil =>
    intro t s tr h
    simp only [runSlices, Option.some.injEq] at h
    subst h
    exact ⟨rfl, rfl, by simp⟩
  | cons c cs ih =>
    intro t s tr h
    simp only [runSlices, Option.bind_eq_some, Option.map_eq_some'] at h
    obtain ⟨⟨steps, t1, s1⟩, hw, rest, hr, rfl⟩ := h
    obtain ⟨hwch, hwle, hwall⟩ := whileLoop_spec hw
    obtain ⟨ihmap, ihch, ihall⟩ := ih hr
    refine ⟨by simp [ihmap], ?_, ?_⟩
    · rw [allSubSteps_cons]
      exact Chained.append hwch ihch
    · intro sl hsl
      rcases List.mem_cons.mp hsl with rfl | hsl1
      · exact ⟨hwle, ⟨t, hwch⟩, hwall⟩
      · exact ihall sl hsl1

theorem range'_chain_lt (s n step : ℕ) (h : 0 < step) :
    List.Chain' (· < ·) (List.range' s n step) := by
  cases n with
  | zero => simp
  | succ m =>
    rw [List.range'_succ]
    exact List.chain_lt_range' s m h

theorem pythonRange_chain' {start stop step : ℕ} (h : 0 < step) :
    List.Chain' (· < ·) (pythonRange start stop step) :=
  range'_chain_lt start ((stop - start + step - 1) / step) step h

theorem pythonRange_last_covers {T s : ℕ} (hs : 0 < s) :
    ∃ c ∈ pythonRange 0 (T + s) s, T ≤ c := by
  refine ⟨s * ((T + s - 1) / s), ?_, ?_⟩
  · unfold pythonRange
    rw [List.mem_range']
    refine ⟨(T + s - 1) / s, ?_, (Nat.zero_add _).symm⟩
    have h1 : T + s - 0 + s - 1 = T + s - 1 + s := by omega
    rw [h1, Nat.add_div_right _ hs]
    omega
  · have hq := Nat.div_add_mod (T + s - 1) s
    have hr : (T + s - 1) % s < s := Nat.mod_lt _ hs
    have key : ∀ m r : ℕ, m + r = T + s - 1 → r < s → T ≤ m := by
      intro m r hmr hrs
      omega
    exact key _ _ hq hr

omit [LinearOrderedRing α] in
/-- Sub-step membership in a run is membership in some slice's step list. -/
theorem mem_allSubSteps {st : SubStep α} {tr : List (SliceTrace α)} :
    st ∈ allSubSteps tr ↔ ∃ sl ∈ tr, st ∈ sl.steps := by
  simp [allSubSteps, List.mem_flatten]

/-- If the integrator's `calc_time_step` is positive on every state, every
sub-step of a successful run has a positive `dt`. -/
theorem allSubSteps_dt_pos {I : Integrator σ α} {cfg : RunConfig α} {fuel : ℕ}
    {cs : List ℕ} {t : α} {s : σ} {tr : List (SliceTrace α)}
    (h : runSlices I cfg fuel cs t s = some tr)
    (hdt : ∀ s1 : σ, 0 < I.calc_dt s1) :
    ∀ st ∈ allSubSteps tr, 0 < st.dt := by
  intro st hst
  obtain ⟨sl, hsl, hstep⟩ := mem_allSubSteps.mp hst
  obtain ⟨sPre, hpre⟩ := (((runSlices_spec h).2.2 sl hsl).2.2 st hstep).2.2
  rw [hpre]
  exact hdt sPre

/-- Kernel evaluation of the concrete `constInt` run. -/
theorem driverRun_constInt_eval :
    driverRun constInt intConfig 2 () = some runTrace0 := rfl

/-- Kernel evaluation of the concrete `constInt400` run. -/
theorem driverRun_constInt400_eval :
    driverRun constInt400 intConfig 2 () = some runTrace400 := rfl

/-- C1: for a run with `model_run_time = 1200` seconds and checkpoint
interval `time_step = 30` seconds, the driver loop invokes the checkpoint
side effect (the `time_slice > 0` plot/export branch) exactly 40 times, at
checkpoint times 30, 60, …, 1200, strictly increasing, none skipped and none
repeated. -/
theorem C1_checkpoint_schedule (I : Integrator σ α) (cfg : RunConfig α)
    (fuel : ℕ) (s0 : σ) (tr : List (SliceTrace α))
    (hm : cfg.model_run_time = 1200) (ht : cfg.time_step = 30)
    (hrun : driverRun I cfg fuel s0 = some tr) :
    checkpointTimes tr = List.range' 30 40 30 ∧
    (checkpointTimes tr).length = 40 ∧
    List.Chain' (· < ·) (checkpointTimes tr) := by
  have hrun1 : runSlices I cfg fuel
      (pythonRange 0 (cfg.model_run_time + cfg.time_step) cfg.time_step) 0 s0
      = some tr := hrun
  have hmap := (runSlices_spec hrun1).1
  rw [hm, ht] at hmap
  have hcp : checkpointTimes tr
      = (pythonRange 0 (1200 + 30) 30).filter fun c => decide (0 < c) := by
    rw [checkpointTimes, hmap]
  have hlist : checkpointTimes tr = List.range' 30 40 30 := by
    rw [hcp]
    decide
  refine ⟨hlist, ?_, ?_⟩
  · rw [hlist]
    decide
  · rw [hlist]
    exact range'_chain_lt 30 40 30 (by decide)

theorem C1_checkpoint_schedule_witness :
    driverRun constInt intConfig 2 () = some runTrace0 ∧
    checkpointTimes runTrace0 = List.range' 30 40 30 :=
  ⟨driverRun_constInt_eval,
    (C1_checkpoint_schedule constInt intConfig 2 () runTrace0 rfl rfl
      driverRun_constInt_eval).1⟩

/-- C2: the rainfall forcing is an exact step function of elapsed time: for
every `t` with `0 ≤ t < storm_duration` the applied intensity equals the
configured `rainfall_intensity`, and for every `t ≥ storm_duration` it equals
`0`; `intensity_at` is a pure function of `t` and the configuration. -/
theorem C2_rainfall_step_function (cfg : RunConfig α) (t : α) :
    (0 ≤ t → t < cfg.storm_duration →
      intensity_at cfg t = cfg.rainfall_intensity) ∧
    (cfg.storm_duration ≤ t → intensity_at cfg t = 0) := by
  constructor
  · intro _ hlt
    simp [intensity_at, hlt]
  · intro hge
    simp [intensity_at, not_lt.mpr hge]

theorem C2_rainfall_step_function_witness :
    ((0 : ℤ) ≤ 100 ∧ (100 : ℤ) < intConfig.storm_duration ∧
      intensity_at intConfig 100 = intConfig.rainfall_intensity) ∧
    (intConfig.storm_duration ≤ (700 : ℤ) ∧ intensity_at intConfig 700 = 0) :=
  ⟨⟨by decide, by decide,
      (C2_rainfall_step_function intConfig 100).1 (by decide) (by decide)⟩,
    ⟨by decide, (C2_rainfall_step_function intConfig 700).2 (by decide)⟩⟩

/-- C3: for every completed run whose integrator satisfies the positive
timestep contract, the discharge series recorded at the outlet is strictly
increasing in its time component (so never reordered, with no duplicate
times) and contains exactly one `(time, discharge)` entry per executed
sub-step — none dropped, none repeated. -/
theorem C3_discharge_series (I : Integrator σ α) (cfg : RunConfig α)
    (fuel : ℕ) (s0 : σ) (tr : List (SliceTrace α))
    (hrun : driverRun I cfg fuel s0 = some tr)
    (hdt : ∀ s1 : σ, 0 < I.calc_dt s1) :
    List.Chain' (· < ·) (outletTimes tr) ∧
    (outletTimes tr).length = (allSubSteps tr).length ∧
    (outletDischargeSeries tr).length = (allSubSteps tr).length := by
  have hrun1 : runSlices I cfg fuel
      (pythonRange 0 (cfg.model_run_time + cfg.time_step) cfg.time_step) 0 s0
      = some tr := hrun
  have hch := (runSlices_spec hrun1).2.1
  have hpos := allSubSteps_dt_pos hrun1 hdt
  exact ⟨(Chained.mono hch hpos).2.2, by simp [outletTimes],
    by simp [outletDischargeSeries]⟩

theorem C3_discharge_series_witness :
    driverRun constInt intConfig 2 () = some runTrace0 ∧
    List.Chain' (· < ·) (outletTimes runTrace0) ∧
    (outletTimes runTrace0).length = (allSubSteps runTrace0).length :=
  ⟨driverRun_constInt_eval,
    (C3_discharge_series constInt intConfig 2 () runTrace0
      driverRun_constInt_eval fun _ => (by decide : (0 : ℤ) < 30)).1,
    (C3_discharge_series constInt intConfig 2 () runTrace0
      driverRun_constInt_eval fun _ => (by decide : (0 : ℤ) < 30)).2.1⟩

/-- C4: in the driver loop, sub-steps are taken while
`elapsed_time < next_checkpoint`, so no sub-step of a slice starts at or past
the slice's checkpoint, the inner loop overshoots each checkpoint by less
than the final sub-step's `dt`, checkpoints are processed strictly in
increasing order, and the loop terminates with a final checkpoint at or past
`model_run_time` whose slice ends at or past `model_run_time`. -/
theorem C4_checkpoint_discipline (I : Integrator σ α) (cfg : RunConfig α)
    (fuel : ℕ) (s0 : σ) (tr : List (SliceTrace α))
    (hrun : driverRun I cfg fuel s0 = some tr)
    (hstep : 0 < cfg.time_step) :
    DriverLoopDiscipline cfg tr := by
  have hrun1 : runSlices I cfg fuel
      (pythonRange 0 (cfg.model_run_time + cfg.time_step) cfg.time_step) 0 s0
      = some tr := hrun
  obtain ⟨hmap, hch, hall⟩ := runSlices_spec hrun1
  refine ⟨?_, ?_, ?_, ?_, ?_⟩
  · intro sl hsl st hst
    exact ((hall sl hsl).2.2 st hst).1
  · intro sl hsl lst hlst
    obtain ⟨hle, ⟨t0, hch0⟩, hstall⟩ := hall sl hsl
    obtain ⟨hee, hmem⟩ := Chained.last_eq hch0 lst hlst
    have hse := Chained.sample_eq hch0 lst hmem
    have hlt := (hstall lst hmem).1
    rw [hee, hse]
    exact add_lt_add_right hlt lst.dt
  · intro sl hsl
    exact (hall sl hsl).1
  · rw [hmap]
    exact pythonRange_chain' hstep
  · obtain ⟨c, hcmem, hTc⟩ :=
      @pythonRange_last_covers cfg.model_run_time cfg.time_step hstep
    rw [← hmap] at hcmem
    obtain ⟨sl, hslmem, hsc⟩ := List.mem_map.mp hcmem
    have hnat : cfg.model_run_time ≤ sl.slice := by
      rw [hsc]
      exact hTc
    exact ⟨sl, hslmem, hnat,
      le_trans (Nat.cast_le.mpr hnat) ((hall sl hslmem).1)⟩

theorem C4_checkpoint_discipline_witness :
    0 < intConfig.time_step ∧ DriverLoopDiscipline intConfig runTrace0 :=
  ⟨by decide,
    C4_checkpoint_discipline constInt intConfig 2 () runTrace0
      driverRun_constInt_eval (by decide)⟩

/-- C5: `compute_timestep` is a pure function of the grid and the current
flow state: two calls with unchanged depth and discharge fields (even at
different elapsed times) return the same timestep value. -/
theorem C5_compute_timestep_pure
    (bound : Grid → (ℕ → ℚ) → (ℕ → ℚ) → Option ℚ) (tc : TimestepConfig)
    (g : Grid) (fs1 fs2 : FlowState)
    (hd : fs1.water_depth = fs2.water_depth)
    (hq : fs1.discharge = fs2.discharge) :
    compute_timestep bound tc g fs1 = compute_timestep bound tc g fs2 := by
  unfold compute_timestep
  rw [hd, hq]

theorem C5_compute_timestep_pure_witness :
    compute_timestep (fun _ _ _ => some 2) ⟨1, 1⟩ demoGrid
        ⟨fun _ => 1, fun _ => 0, 0⟩
      = compute_timestep (fun _ _ _ => some 2) ⟨1, 1⟩ demoGrid
        ⟨fun _ => 1, fun _ => 0, 5⟩ :=
  C5_compute_timestep_pure (fun _ _ _ => some 2) ⟨1, 1⟩ demoGrid
    ⟨fun _ => 1, fun _ => 0, 0⟩ ⟨fun _ => 1, fun _ => 0, 5⟩ rfl rfl

/-- C6: `compute_timestep` never yields `dt ≤ 0`: whenever the stability
bound is non-finite (`none`) or non-positive, the small positive floor value
is substituted, and in every case the returned `dt` is strictly positive. -/
theorem C6_compute_timestep_positive
    (bound : Grid → (ℕ → ℚ) → (ℕ → ℚ) → Option ℚ) (tc : TimestepConfig)
    (g : Grid) (fs : FlowState)
    (hfloor : 0 < tc.dt_floor) (hmax : 0 < tc.dt_max) :
    0 < compute_timestep bound tc g fs ∧
    (bound g fs.water_depth fs.discharge = none →
      compute_timestep bound tc g fs = tc.dt_floor) ∧
    (∀ v, bound g fs.water_depth fs.discharge = some v → v ≤ 0 →
      compute_timestep bound tc g fs = tc.dt_floor) := by
  cases hb : bound g fs.water_depth fs.discharge with
  | none =>
    have heq : compute_timestep bound tc g fs = tc.dt_floor := by
      unfold compute_timestep
      rw [hb]
    exact ⟨heq ▸ hfloor, fun _ => heq, fun v hv => Option.noConfusion hv⟩
  | some v0 =>
    have heq : compute_timestep bound tc g fs
        = if v0 ≤ 0 then tc.dt_floor else min v0 tc.dt_max := by
      unfold compute_timestep
      rw [hb]
    by_cases hv0 : v0 ≤ 0
    · rw [if_pos hv0] at heq
      refine ⟨heq ▸ hfloor, fun hnone => Option.noConfusion hnone,
        fun v hv hle => heq⟩
    · rw [if_neg hv0] at heq
      refine ⟨?_, fun hnone => Option.noConfusion hnone, ?_⟩
      · rw [heq]
        exact lt_min (not_le.mp hv0) hmax
      · intro v hv hle
        injection hv with hv
        subst hv
        exact absurd hle hv0

theorem C6_compute_timestep_positive_witness :
    (0 : ℚ) < (⟨1, 1⟩ : TimestepConfig).dt_floor ∧
    0 < compute_timestep (fun _ _ _ => none) ⟨1, 1⟩ demoGrid
        ⟨fun _ => 1, fun _ => 0, 0⟩ :=
  ⟨one_pos,
    (C6_compute_timestep_positive (fun _ _ _ => none) ⟨1, 1⟩ demoGrid
      ⟨fun _ => 1, fun _ => 0, 0⟩ one_pos one_pos).1⟩

/-- C7: if the grid contains no FIXED_VALUE (outlet) node, or the supplied
outlet index lies outside the grid, initialization fails with
`InvalidBoundaryConfigurationError` and the checked run produces that fatal
error before any sub-step runs. -/
theorem C7_invalid_boundary_configuration (g : Grid) (outlet : ℕ)
    (I : Integrator σ α) (cfg : RunConfig α) (fuel : ℕ) (s0 : σ)
    (h : g.numNodes ≤ outlet ∨
      ¬ ∃ n ∈ Finset.range g.numNodes, g.status n = NodeStatus.fixedValue) :
    checkedDriverRun g outlet I cfg fuel s0 =
      Except.error InitError.invalidBoundaryConfiguration := by
  have hcond : ¬ (outlet < g.numNodes ∧
      ∃ n ∈ Finset.range g.numNodes, g.status n = NodeStatus.fixedValue) := by
    rcases h with h1 | h2
    · exact fun hc => absurd hc.1 (not_lt.mpr h1)
    · exact fun hc => h2 hc.2
  unfold checkedDriverRun initializeRun
  rw [if_neg hcond]

theorem C7_invalid_boundary_configuration_witness :
    checkedDriverRun noOutletGrid 2 constInt intConfig 1 () =
      Except.error InitError.invalidBoundaryConfiguration :=
  C7_invalid_boundary_configuration noOutletGrid 2 constInt intConfig 1 ()
    (Or.inr (by decide))

/-- C8: for every grid and every sequence of modelled sub-steps, `advance`
(including its clamping step) keeps the water depth at every node
non-negative: starting from non-negative depths, depths remain in `[0, ∞)`
after any number of sub-steps. -/
theorem C8_depth_nonneg (momentum : Grid → FlowState → ℕ → ℚ) (g : Grid)
    (inputs : List (ℚ × ℚ)) (fs : FlowState)
    (h0 : ∀ n, 0 ≤ fs.water_depth n) :
    ∀ n, 0 ≤ (advanceRun momentum g inputs fs).water_depth n := by
  induction inputs generalizing fs with
  | nil => exact h0
  | cons p rest ih =>
    refine ih (advance momentum g p.1 p.2 fs) ?_
    intro n
    show 0 ≤ (advance momentum g p.1 p.2 fs).water_depth n
    cases hst : g.status n with
    | closed => simp [advance, hst]
    | fixedValue =>
      simpa [advance, hst] using h0 n
    | core =>
      simp [advance, hst]

theorem C8_depth_nonneg_witness :
    (0 : ℚ) ≤ (⟨fun _ => 0, fun _ => 0, 0⟩ : FlowState).water_depth 1 ∧
    (0 : ℚ) ≤ (advanceRun (fun _ _ _ => 1) demoGrid [(1, 2)]
        ⟨fun _ => 0, fun _ => 0, 0⟩).water_depth 1 :=
  ⟨le_refl 0,
    C8_depth_nonneg (fun _ _ _ => 1) demoGrid [(1, 2)]
      ⟨fun _ => 0, fun _ => 0, 0⟩ (fun _ => le_refl 0) 1⟩

/-- C9: every entry appended to the discharge series records the elapsed time
measured after the sub-step's `dt` has been added, so every recorded sample
time is strictly greater than 0 and the series contains no sample at elapsed
time 0. -/
theorem C9_no_time_zero_sample (I : Integrator σ α) (cfg : RunConfig α)
    (fuel : ℕ) (s0 : σ) (tr : List (SliceTrace α))
    (hrun : driverRun I cfg fuel s0 = some tr)
    (hdt : ∀ s1 : σ, 0 < I.calc_dt s1) :
    (∀ st ∈ allSubSteps tr, st.sampleTime = st.tStart + st.dt) ∧
    (∀ x ∈ outletTimes tr, 0 < x) ∧
    (0 : α) ∉ outletTimes tr := by
  have hrun1 : runSlices I cfg fuel
      (pythonRange 0 (cfg.model_run_time + cfg.time_step) cfg.time_step) 0 s0
      = some tr := hrun
  have hch := (runSlices_spec hrun1).2.1
  have hpos := allSubSteps_dt_pos hrun1 hdt
  have hgt := (Chained.mono hch hpos).2.1
  refine ⟨Chained.sample_eq hch, ?_, ?_⟩
  · intro x hx
    obtain ⟨st, hst, hsamp⟩ := List.mem_map.mp hx
    rw [← hsamp]
    exact hgt st hst
  · intro h0
    obtain ⟨st, hst, hsamp⟩ := List.mem_map.mp h0
    have hlt := hgt st hst
    rw [hsamp] at hlt
    exact lt_irrefl 0 hlt

theorem C9_no_time_zero_sample_witness :
    driverRun constInt intConfig 2 () = some runTrace0 ∧
    (0 : ℤ) ∉ outletTimes runTrace0 :=
  ⟨driverRun_constInt_eval,
    (C9_no_time_zero_sample constInt intConfig 2 () runTrace0
      driverRun_constInt_eval fun _ => (by decide : (0 : ℤ) < 30)).2.2⟩

/-- C10: the rainfall intensity applied during a sub-step is chosen from the
elapsed time at the start of that sub-step (before `dt` is added): whenever
the start time is below `storm_duration` the full configured intensity is
applied — even for a sub-step whose end time exceeds `storm_duration` — and
the cutoff to zero takes effect exactly for the sub-steps that start at or
after `storm_duration`. -/
theorem C10_rainfall_cutoff_at_substep_start (I : Integrator σ α)
    (cfg : RunConfig α) (fuel : ℕ) (s0 : σ) (tr : List (SliceTrace α))
    (hrun : driverRun I cfg fuel s0 = some tr) :
    ∀ st ∈ allSubSteps tr,
      st.rain = intensity_at cfg st.tStart ∧
      (st.tStart < cfg.storm_duration → st.rain = cfg.rainfall_intensity) ∧
      (cfg.storm_duration ≤ st.tStart → st.rain = 0) := by
  have hrun1 : runSlices I cfg fuel
      (pythonRange 0 (cfg.model_run_time + cfg.time_step) cfg.time_step) 0 s0
      = some tr := hrun
  obtain ⟨-, -, hall⟩ := runSlices_spec hrun1
  intro st hst
  obtain ⟨sl, hsl, hstin⟩ := mem_allSubSteps.mp hst
  have hrain := ((hall sl hsl).2.2 st hstin).2.1
  refine ⟨hrain, ?_, ?_⟩
  · intro hlt
    rw [hrain]
    simp [intensity_at, hlt]
  · intro hge
    rw [hrain]
    simp [intensity_at, not_lt.mpr hge]

theorem C10_rainfall_cutoff_witness :
    (⟨400, 400, 1, 800, 0⟩ : SubStep ℤ) ∈ allSubSteps runTrace400 ∧
    intConfig.storm_duration ≤ (800 : ℤ) ∧
    (⟨400, 400, 1, 800, 0⟩ : SubStep ℤ).rain = intConfig.rainfall_intensity :=
  ⟨by decide, by decide,
    (C10_rainfall_cutoff_at_substep_start constInt400 intConfig 2 ()
      runTrace400 driverRun_constInt400_eval
      ⟨400, 400, 1, 800, 0⟩ (by decide)).2.1 (by decide)⟩

end OverlandFlow
